import Mathlib

/-!
Verification of the outline-extraction core of `src/processor.py`
(`RobustOutlineExtractor`): text normalisation, font-profile building,
title resolution, native-TOC normalisation, heuristic heading detection
and outline assembly.

Modelling conventions (shallow embedding):
* strings are `List Char`; the Python `\w` / `\s` character classes are
  modelled over ASCII (`Char.isAlphanum`, explicit whitespace list);
* Python floats are modelled as exact rationals (`ℚ`); the empirical
  constants 0.3, 0.7, 1.2, 1.5, 0.8, 0.6, 0.5, 0.4, 0.2 become the exact
  rationals 3/10, 7/10, 6/5, 3/2, 4/5, 3/5, 1/2, 2/5, 1/5;
* fallible code is modelled with `Except` / `Option`;
* `fitz` supplies pages, lines, spans, metadata and the native TOC; those
  inputs are modelled as plain data (`Document` below) and the extractor's
  methods as functions over them.
-/

deriving instance DecidableEq for Except

/-! ## Data model (inputs supplied by the document-access layer) -/

/-- A text span: `span["text"]`, `span["size"]` (raw, unrounded) and
`span["flags"]` as used by `processor.py`. -/
structure Span where
  text : List Char
  size : ℚ
  flags : ℕ
deriving DecidableEq

/-- A line: its spans and its bounding box `line["bbox"] = (x0, y0, x1, y1)`. -/
structure Line where
  spans : List Span
  x0 : ℚ
  y0 : ℚ
  x1 : ℚ
  y1 : ℚ
deriving DecidableEq

/-- A page: `page.rect.width` and the lines of its text blocks (the block
level is pure grouping in the source — every loop iterates
`blocks → lines → spans` — so lines are kept flat). -/
structure Page where
  width : ℚ
  lines : List Line
deriving DecidableEq

/-- The document as the extractor sees it: pages, the native TOC
(`doc.get_toc()`, triples `(level, title, page)` with 1-based page),
the metadata title (`None` when the metadata mapping or its `title`
field is missing/falsy), and `os.path.basename(pdf_path)`. -/
structure Document where
  pages : List Page
  toc : List (ℤ × List Char × ℤ)
  metadataTitle : Option (List Char)
  baseName : List Char
deriving DecidableEq

/-- A produced outline entry `{level, text, page}`. -/
structure OutlineEntry where
  level : List Char
  text : List Char
  page : ℤ
deriving DecidableEq

/-- The final `{title, outline}` result; `error` is set on the
`process_pdf` failure path. -/
structure Result where
  title : List Char
  outline : List OutlineEntry
  error : Option Unit
deriving DecidableEq

/-- `body_size` and `size_map` of the font profile returned by
`_analyze_fonts` (the `font_styles` histogram and `raw_data` are carried
along in the source but never consumed by the logic under verification). -/
structure FontProfile where
  bodySize : ℚ
  sizeMap : List (List Char × ℚ)
deriving DecidableEq

/-! ## Text normaliser `_clean_text` -/

/-- Python's `\s` over ASCII: the whitespace characters of `re`. -/
def isPySpace (c : Char) : Bool :=
  c == ' ' || c == '\t' || c == '\n' || c == '\r' || c == '\x0b' || c == '\x0c'

/-- Python's `\w` over ASCII: letters, digits and underscore. -/
def isWordChar (c : Char) : Bool :=
  c.isAlphanum || c == '_'

/-- The character class `[\w\s.,:;!?()-]` kept by `_clean_text`. -/
def isAllowedChar (c : Char) : Bool :=
  isWordChar c || isPySpace c || c == '.' || c == ',' || c == ':' || c == ';' ||
    c == '!' || c == '?' || c == '(' || c == ')' || c == '-'

/-- `re.sub(r'\s+', ' ', text)`: replace each maximal whitespace run by a
single space.  The flag records whether we are inside a run whose space
has already been emitted. -/
def collapseWsAux : Bool → List Char → List Char
  | _, [] => []
  | inRun, c :: rest =>
    if isPySpace c then
      if inRun then collapseWsAux true rest
      else ' ' :: collapseWsAux true rest
    else c :: collapseWsAux false rest

/-- `str.strip()`: drop leading and trailing whitespace. -/
def stripWs (l : List Char) : List Char :=
  ((l.dropWhile isPySpace).reverse.dropWhile isPySpace).reverse

/-- `_clean_text`: drop characters outside `[\w\s.,:;!?()-]`, collapse
whitespace runs to single spaces, strip the ends.  (`if not text: return ""`
is subsumed: every step maps the empty string to itself.) -/
def cleanText (l : List Char) : List Char :=
  stripWs (collapseWsAux false (l.filter isAllowedChar))

/-! ## The heading regex and Python string predicates -/

/-- `\b` right after a word character: succeeds at end of input or when the
next character is not a word character. -/
def wordBoundaryNext : List Char → Bool
  | [] => true
  | c :: _ => !(isWordChar c)

/-- One keyword alternative of the heading regex, case-insensitively at the
start of the text, followed by `\b`. -/
def kwMatch (kw : List Char) (l : List Char) : Bool :=
  ((l.take kw.length).map Char.toLower == kw) && wordBoundaryNext (l.drop kw.length)

/-- The keyword alternatives `chapter|section|appendix|part|article`. -/
def headingKeywords : List (List Char) :=
  ["chapter".toList, "section".toList, "appendix".toList, "part".toList, "article".toList]

/-- The alternative `\d+(\.\d+)*` followed by `\b`.  With backtracking, the
`\d+` can only stop at the end of the maximal digit run (stopping earlier
leaves a digit, a word character, under the `\b`), and the `(\.\d+)*` loop
never affects acceptance: it can only consume further input when the next
character is `'.'`, and `'.'` is a non-word character, so `\b` already
matches there.  Acceptance therefore reduces to: a non-empty leading digit
run whose following character (if any) is not a word character. -/
def matchNumbering (l : List Char) : Bool :=
  !(l.takeWhile Char.isDigit).isEmpty && wordBoundaryNext (l.dropWhile Char.isDigit)

/-- After `[A-Z]\.`: the previous character `'.'` is a non-word character,
so `\b` here needs the next character to be a word character. -/
def dotPath : List Char → Bool
  | '.' :: d :: _ => isWordChar d
  | _ => false

/-- The alternative `[A-Z]\.?` followed by `\b`.  Under `re.IGNORECASE` the
class `[A-Z]` matches any ASCII letter.  Backtracking over the optional
dot gives the two disjuncts. -/
def matchLetter : List Char → Bool
  | [] => false
  | c :: rest => c.isAlpha && (wordBoundaryNext rest || dotPath rest)

/-- `heading_pattern.match(text)` truthiness for
`^(chapter|section|appendix|part|article|^\d+(\.\d+)*|^[A-Z]\.?)\b` with
`re.IGNORECASE`. -/
def hasNumbering (l : List Char) : Bool :=
  headingKeywords.any (fun kw => kwMatch kw l) || matchNumbering l || matchLetter l

/-- `str.istitle()` over ASCII: cased characters alternate correctly
(uppercase only after uncased, lowercase only after cased) and at least
one cased character occurs.  `prevCased`/`found` thread Python's scan. -/
def pyIsTitleAux : List Char → Bool → Bool → Bool
  | [], _, found => found
  | c :: rest, prevCased, found =>
    if c.isUpper then
      if prevCased then false else pyIsTitleAux rest true true
    else if c.isLower then
      if prevCased then pyIsTitleAux rest true true else false
    else pyIsTitleAux rest false found

/-- `str.istitle()` over ASCII. -/
def pyIsTitle (l : List Char) : Bool :=
  pyIsTitleAux l false false

/-- `str.isupper()` over ASCII: no lowercase letter and at least one
uppercase letter. -/
def pyIsUpper (l : List Char) : Bool :=
  !(l.any Char.isLower) && l.any Char.isUpper

/-! ## `_is_heading_candidate` -/

/-- The `is_centered` feature exactly as written in the source:
`position[0] > page_width * 0.3 and position[1] < page_width * 0.7`.
The caller passes `position = (center_x, page_width)`. -/
def isCenteredFeature (position : ℚ × ℚ) (pageWidth : ℚ) : Bool :=
  decide (position.1 > pageWidth * (3 / 10)) && decide (position.2 < pageWidth * (7 / 10))

/-- The score accumulated by `_is_heading_candidate` (the local variable
`score` just before the final comparison).  `bodySize` is
`self.font_profiles["body_size"]`. -/
def headingScore (text : List Char) (fontSize : ℚ) (fontFlags : ℕ)
    (position : ℚ × ℚ) (pageWidth : ℚ) (bodySize : ℚ) : ℚ :=
  let sizeFactor := if bodySize > 0 then fontSize / bodySize else 1
  let isBold := fontFlags % 2 == 1
  let hasNum := hasNumbering text
  let isCent := isCenteredFeature position pageWidth
  let isTitleCase := pyIsTitle text || pyIsUpper text
  min 3 sizeFactor * (3 / 2)
    + (if isBold then 1 else 0)
    + (if hasNum then 4 / 5 else 0)
    + (if isCent then 3 / 5 else 0)
    + (if isTitleCase then 1 / 2 else 0)
    + (if text.length < 80 then 2 / 5 else -(1 / 5))

/-- `_is_heading_candidate`: build the feature score and compare it
strictly against the 3.0 threshold. -/
def isHeadingCandidate (text : List Char) (fontSize : ℚ) (fontFlags : ℕ)
    (position : ℚ × ℚ) (pageWidth : ℚ) (bodySize : ℚ) : Bool :=
  let sizeFactor := if bodySize > 0 then fontSize / bodySize else 1
  let isBold := fontFlags % 2 == 1
  let hasNum := hasNumbering text
  let isCent := isCenteredFeature position pageWidth
  let isTitleCase := pyIsTitle text || pyIsUpper text
  let score := min 3 sizeFactor * (3 / 2)
    + (if isBold then 1 else 0)
    + (if hasNum then 4 / 5 else 0)
    + (if isCent then 3 / 5 else 0)
    + (if isTitleCase then 1 / 2 else 0)
    + (if text.length < 80 then 2 / 5 else -(1 / 5))
  decide (score > 3)

/-! ## `_analyze_fonts` -/

/-- Python's `round` (banker's rounding, half to even). -/
def pyRound (q : ℚ) : ℤ :=
  let f := q.floor
  let r := q - (f : ℚ)
  if r < 1 / 2 then f
  else if 1 / 2 < r then f + 1
  else if f % 2 = 0 then f else f + 1

/-- All rounded span sizes of the document, in reading order — the `size`
column of `font_data` in `_analyze_fonts` (one row per span). -/
def collectSizes (doc : Document) : List ℤ :=
  doc.pages.flatMap (fun p => p.lines.flatMap (fun l => l.spans.map (fun s => pyRound s.size)))

/-- Distinct values of a list, first-occurrence order. -/
def firstOccsAux : List ℤ → List ℤ → List ℤ
  | [], _ => []
  | x :: r, seen => if x ∈ seen then firstOccsAux r seen else x :: firstOccsAux r (x :: seen)

/-- Distinct values of a list, first-occurrence order. -/
def firstOccs (l : List ℤ) : List ℤ :=
  firstOccsAux l []

/-- The DBSCAN(eps = 0.5, min_samples = 5) clusters of the rounded sizes.
On integer inputs the 0.5-neighbourhood of a point is exactly the points
equal to it, so a point is core iff its value occurs at least 5 times,
clusters are precisely the value groups of multiplicity ≥ 5, and all other
points are noise (their neighbourhoods contain no core point).  sklearn
assigns labels in order of the first core point scanned, so iterating
`size_clusters` visits clusters in first-occurrence order; each cluster is
represented here by its (constant) value. -/
def clustersOf (sizes : List ℤ) : List ℤ :=
  (firstOccs sizes).filter (fun v => 5 ≤ sizes.count v)

/-- `max(size_clusters, key=len)`: Python's `max` keeps the first maximum
of the iteration order, so this is the first cluster of maximal
membership count. -/
def bodyCluster (sizes : List ℤ) (clusters : List ℤ) : ℤ :=
  match clusters with
  | [] => 0
  | c :: cs => cs.foldl (fun best v => if sizes.count v > sizes.count best then v else best) c

/-- Descending insertion. -/
def insertDesc (x : ℚ) : List ℚ → List ℚ
  | [] => [x]
  | y :: r => if x ≥ y then x :: y :: r else y :: insertDesc x r

/-- `sorted(..., reverse=True)`. -/
def sortDesc (l : List ℚ) : List ℚ :=
  l.foldr insertDesc []

/-- Lines 80–84 of `processor.py`: map the descending heading sizes to
levels — `H1` the first, `H2` the second (or the first again), `H3` the
third (or the last available). -/
def mkSizeMap : List ℚ → List (List Char × ℚ)
  | [] => []
  | s0 :: rest =>
    [("H1".toList, s0),
     ("H2".toList, match rest with | [] => s0 | s1 :: _ => s1),
     ("H3".toList, match rest with | [] => s0 | [s1] => s1 | _ :: s2 :: _ => s2)]

/-- `_analyze_fonts` on the rounded span sizes.  `Except.error` models the
uncaught `ValueError` that `max(size_clusters, key=...)` raises when every
point is noise; `.ok none` is the empty profile `{}` returned for a
document with no spans.  Each cluster is a constant multiset, so
`statistics.median` of a cluster is its value. -/
def analyzeFonts (sizes : List ℤ) : Except Unit (Option FontProfile) :=
  if sizes.isEmpty then .ok none
  else
    let clusters := clustersOf sizes
    if clusters.isEmpty then .error ()
    else
      let bodySize : ℚ := (bodyCluster sizes clusters : ℚ)
      let headingMedians :=
        (clusters.filter (fun v => decide ((v : ℚ) > bodySize * (6 / 5)))).map
          (fun v => ((v : ℚ)))
      .ok (some ⟨bodySize, mkSizeMap (sortDesc headingMedians)⟩)

/-! ## `_get_title` -/

/-- `str.replace('.pdf', '')`: remove every (non-overlapping, leftmost)
occurrence of `.pdf`. -/
def replaceAllPdf : List Char → List Char
  | '.' :: 'p' :: 'd' :: 'f' :: rest => replaceAllPdf rest
  | c :: rest => c :: replaceAllPdf rest
  | [] => []

/-- The spans of page 0 in reading order; `[]` both when the document has
no pages (the `IndexError` of `self.doc[0]`, swallowed by the bare
`except`, leads to the same filename fallback as an empty scan). -/
def page0Spans (doc : Document) : List Span :=
  match doc.pages with
  | [] => []
  | p :: _ => p.lines.flatMap (fun l => l.spans)

/-- One step of the `max_size` / `candidate` scan of `_get_title` step 2:
remember the text of a span whose size strictly exceeds the running
maximum. -/
def titleStep (acc : ℚ × Option (List Char)) (s : Span) : ℚ × Option (List Char) :=
  if s.size > acc.1 then (s.size, some s.text) else acc

/-- The `max_size` / `candidate` scan of `_get_title` step 2, starting from
`max_size = 0`, `candidate = None`. -/
def titleCandFold (spans : List Span) : ℚ × Option (List Char) :=
  spans.foldl titleStep (0, none)

/-- Steps 2 and 3 of `_get_title`: `if candidate: return clean(candidate)`
(the *raw* candidate is tested for truthiness, its cleaned text is
returned unconditionally), else the basename with `.pdf` replaced away. -/
def titleFallback (doc : Document) : List Char :=
  match (titleCandFold (page0Spans doc)).2 with
  | some c => if c.isEmpty then replaceAllPdf doc.baseName else cleanText c
  | none => replaceAllPdf doc.baseName

/-- `_get_title`: metadata title (tested for truthiness raw, accepted when
its cleaned form is non-empty), else the page-0 scan, else the filename. -/
def getTitle (doc : Document) : List Char :=
  match doc.metadataTitle with
  | some t =>
    if t.isEmpty then titleFallback doc
    else if (cleanText t).isEmpty then titleFallback doc
    else cleanText t
  | none => titleFallback doc

/-! ## `_extract_from_toc` -/

/-- `f"H{level}"`. -/
def mkLevelTag (lvl : ℤ) : List Char :=
  'H' :: (toString lvl).toList

/-- `_extract_from_toc`: keep TOC entries with level in `[1, 3]`, tag the
level, clean the title, convert the page to 0-based clamped at 0. -/
def extractFromToc : List (ℤ × List Char × ℤ) → List OutlineEntry
  | [] => []
  | (lvl, title, pg) :: rest =>
    if 1 ≤ lvl ∧ lvl ≤ 3 then
      ⟨mkLevelTag lvl, cleanText title, max 0 (pg - 1)⟩ :: extractFromToc rest
    else extractFromToc rest

/-! ## `_extract_headings_heuristic` -/

/-- The per-line scan accumulating `line_text` (concatenation of span
texts). -/
def lineText (spans : List Span) : List Char :=
  spans.foldl (fun acc s => acc ++ s.text) []

/-- The per-line scan of `max_size` and `font_flags`: the flags of the
first span whose size strictly exceeds the running maximum (initially 0). -/
def lineMaxFlags (spans : List Span) : ℚ × ℕ :=
  spans.foldl (fun acc s => if s.size > acc.1 then (s.size, s.flags) else acc) (0, 0)

/-- Level assignment for a detected heading: the first `size_map` entry
within 0.5 of the line size, else `H3`. -/
def levelFor (sizeMap : List (List Char × ℚ)) (maxSize : ℚ) : List Char :=
  match sizeMap.find? (fun p => decide (|maxSize - p.2| < 1 / 2)) with
  | some p => p.1
  | none => "H3".toList

/-- One line of the heuristic scan: skip empty/short cleaned text, score
the line (the position argument is `(center_x, page_width)` exactly as in
the source), and emit an entry when classified. -/
def lineEntry (prof : FontProfile) (pNum : ℕ) (pageWidth : ℚ) (line : Line) :
    Option OutlineEntry :=
  let t := lineText line.spans
  let ms := lineMaxFlags line.spans
  let ct := cleanText t
  if ct.isEmpty || ct.length < 3 then none
  else if isHeadingCandidate ct ms.1 ms.2 ((line.x0 + line.x1) / 2, pageWidth)
      pageWidth prof.bodySize then
    some ⟨levelFor prof.sizeMap ms.1, ct, (pNum : ℤ)⟩
  else none

/-- The page loop of `_extract_headings_heuristic` (pages enumerated from
`pNum`). -/
def heuristicPages (prof : FontProfile) : ℕ → List Page → List OutlineEntry
  | _, [] => []
  | pNum, page :: rest =>
    page.lines.filterMap (lineEntry prof pNum page.width) ++ heuristicPages prof (pNum + 1) rest

/-- The final dedup comprehension: keep an entry iff its text was not seen
before. -/
def dedupAux : List OutlineEntry → List (List Char) → List OutlineEntry
  | [], _ => []
  | e :: rest, seen =>
    if e.text ∈ seen then dedupAux rest seen
    else e :: dedupAux rest (e.text :: seen)

/-- Deduplicate by exact text, first occurrence kept. -/
def dedupByText (l : List OutlineEntry) : List OutlineEntry :=
  dedupAux l []

/-- The raw (pre-dedup) heuristic outline of a document for a given
profile. -/
def rawHeuristicEntries (doc : Document) (prof : Option FontProfile) : List OutlineEntry :=
  match prof with
  | none => []
  | some p => heuristicPages p 0 doc.pages

/-- `_extract_headings_heuristic`: empty profile short-circuits to `[]`,
otherwise scan all pages and deduplicate. -/
def extractHeadingsHeuristic (doc : Document) (prof : Option FontProfile) :
    List OutlineEntry :=
  match prof with
  | none => []
  | some p => dedupByText (heuristicPages p 0 doc.pages)

/-! ## `get_structured_outline` and `process_pdf` -/

/-- `get_structured_outline`: title plus the outline of the TOC path
(when the native TOC is non-empty) or of the heuristic path. -/
def getStructuredOutline (doc : Document) (prof : Option FontProfile) : Result :=
  { title := getTitle doc
    outline :=
      if doc.toc.isEmpty then extractHeadingsHeuristic doc prof
      else extractFromToc doc.toc
    error := none }

/-- The per-document pipeline of `process_pdf`: the constructor builds the
font profile (re-raising any failure as `RuntimeError`), then
`get_structured_outline` runs; on constructor failure `process_pdf`
writes the `Extraction Failed` document instead. -/
def processDocument (doc : Document) : Result :=
  match analyzeFonts (collectSizes doc) with
  | .error _ => ⟨"Extraction Failed".toList, [], some ()⟩
  | .ok prof => getStructuredOutline doc prof

/-! ## Specification-side models (clearly separated from the source embed)

These definitions follow the words of the specification / claims, not the
source; they exist only to be compared with the embedded code. -/

/-- The centering test as claim C1 words it: the horizontal center
strictly between 30% and 70% of the page width. -/
def specIsCentered (centerX pageWidth : ℚ) : Bool :=
  decide (pageWidth * (3 / 10) < centerX) && decide (centerX < pageWidth * (7 / 10))

/-- The running maximum of span sizes starting from `a`. -/
def maxSizeFold (spans : List Span) (a : ℚ) : ℚ :=
  spans.foldl (fun m s => max m s.size) a

/-- The text of the strictly largest-size span of page 0 (first span wins
a tie), following claim C2's words; `none` when page 0 has no spans. -/
def largestSpanTextPage0 (doc : Document) : Option (List Char) :=
  match page0Spans doc with
  | [] => none
  | s0 :: rest =>
    some ((rest.foldl (fun best s => if s.size > best.size then s else best) s0).text)

/-- The filename with its extension (the part from the last dot) removed,
following claim C2's words. -/
def removeExtension (l : List Char) : List Char :=
  let r := l.reverse
  if r.any (fun c => c == '.') then ((r.dropWhile (fun c => !(c == '.'))).drop 1).reverse
  else l

/-- Formalisation of claim C2 as stated: cleaned metadata title when
non-empty after cleaning; otherwise the cleaned text of the strictly
largest-size span on page 0 when that cleaned text is non-empty;
otherwise the filename with its extension removed. -/
def specResolveTitle (doc : Document) : List Char :=
  let m := match doc.metadataTitle with
    | some t => cleanText t
    | none => []
  if m ≠ [] then m
  else
    let c := match largestSpanTextPage0 doc with
      | some s => cleanText s
      | none => []
    if c ≠ [] then c
    else removeExtension doc.baseName

/-- The fallback chain of claim C2 as amended to match the source: when
page 0 has a span of positive maximal size, take the first span of that
maximal size; if its raw text is non-empty return its cleaned text (even
when the cleaned text is empty); otherwise return the basename with every
occurrence of `.pdf` removed. -/
def specAmendedFallback (doc : Document) : List Char :=
  match (if 0 < maxSizeFold (page0Spans doc) 0 then
          ((page0Spans doc).find?
            (fun s => decide (s.size = maxSizeFold (page0Spans doc) 0))).map Span.text
         else none) with
  | some c => if c ≠ [] then cleanText c else replaceAllPdf doc.baseName
  | none => replaceAllPdf doc.baseName

/-- Claim C2 as amended: the metadata title is accepted when the raw field
is non-empty and it cleans to a non-empty string; otherwise the amended
fallback chain runs. -/
def specResolveTitleAmended (doc : Document) : List Char :=
  match doc.metadataTitle with
  | some t =>
    if t ≠ [] ∧ cleanText t ≠ [] then cleanText t else specAmendedFallback doc
  | none => specAmendedFallback doc

/-! ## Concrete documents used as counterexamples and witnesses -/

/-- No metadata title, a single page-0 span whose raw text `@@@` is
non-empty but cleans to the empty string. -/
def c2doc : Document :=
  ⟨[⟨100, [⟨[⟨"@@@".toList, 12, 0⟩], 0, 0, 10, 10⟩]⟩], [], none, "doc.pdf".toList⟩

/-- Six spans of size 10 (the body cluster) and five of size 14 (one
heading cluster): the size map reuses the single heading size three
times. -/
def c3doc : Document :=
  ⟨[⟨100,
      [⟨[⟨"b".toList, 10, 0⟩, ⟨"b".toList, 10, 0⟩, ⟨"b".toList, 10, 0⟩,
         ⟨"b".toList, 10, 0⟩, ⟨"b".toList, 10, 0⟩, ⟨"b".toList, 10, 0⟩,
         ⟨"h".toList, 14, 0⟩, ⟨"h".toList, 14, 0⟩, ⟨"h".toList, 14, 0⟩,
         ⟨"h".toList, 14, 0⟩, ⟨"h".toList, 14, 0⟩], 0, 0, 10, 10⟩]⟩],
    [], none, "c3.pdf".toList⟩

/-- A TOC title consisting only of disallowed characters: its cleaned text
is empty, yet the TOC path emits the entry. -/
def c4doc : Document :=
  ⟨[], [(1, "@@@".toList, 2)], none, "c4.pdf".toList⟩

/-- A well-formed one-entry TOC document. -/
def c4wdoc : Document :=
  ⟨[], [(1, "Introduction".toList, 2)], none, "c4w.pdf".toList⟩

/-- The entry the TOC path produces for `c4wdoc`. -/
def c4entry : OutlineEntry :=
  ⟨"H1".toList, "Introduction".toList, 1⟩

/-- A TOC with two entries of identical title: the TOC path keeps both. -/
def c5doc : Document :=
  ⟨[], [(1, "A".toList, 1), (1, "A".toList, 2)], none, "dup.pdf".toList⟩

/-- A body line of size 10. -/
def bodyLine : Line :=
  ⟨[⟨"body text here".toList, 10, 0⟩], 0, 0, 50, 12⟩

/-- A bold, numbered heading line of size 20 (score 5.7 against body size
10, classified as a heading). -/
def headLine : Line :=
  ⟨[⟨"1. Introduction".toList, 20, 1⟩], 0, 0, 50, 12⟩

/-- A heuristic document whose heading line occurs twice: the raw scan
yields two identical entries and dedup keeps the first. -/
def c5wdoc : Document :=
  ⟨[⟨100, [headLine, bodyLine, bodyLine, bodyLine, headLine, bodyLine,
            bodyLine, bodyLine]⟩], [], none, "h.pdf".toList⟩

/-- A TOC with in-range and out-of-range levels. -/
def c6doc : Document :=
  ⟨[], [(0, "Skip".toList, 1), (1, "Introduction".toList, 2),
        (2, "Background".toList, 3), (4, "Deep".toList, 9)],
    none, "report.pdf".toList⟩

/-- A document with no pages, no TOC, no metadata. -/
def c8doc : Document :=
  ⟨[], [], none, "empty.pdf".toList⟩

/-- Two spans with distinct sizes: every size value has multiplicity 1,
so every point is DBSCAN noise and no cluster exists. -/
def c10doc : Document :=
  ⟨[⟨100, [⟨[⟨"tiny one".toList, 10, 0⟩, ⟨"more".toList, 12, 0⟩],
            0, 0, 10, 10⟩]⟩], [], none, "small.pdf".toList⟩

/-! ## Lemmas about `_clean_text` -/

/-- The adjacency relation maintained by whitespace collapsing: no two
consecutive whitespace characters. -/
def noTwoWs (a b : Char) : Prop :=
  isPySpace a = false ∨ isPySpace b = false

theorem noTwoWs_symm (a b : Char) : noTwoWs a b → noTwoWs b a :=
  Or.symm

theorem collapseWsAux_cons_space_true (d : Char) (rest : List Char)
    (hd : isPySpace d = true) :
    collapseWsAux true (d :: rest) = collapseWsAux true rest := by
  simp [collapseWsAux, hd]

theorem collapseWsAux_cons_space_false (d : Char) (rest : List Char)
    (hd : isPySpace d = true) :
    collapseWsAux false (d :: rest) = ' ' :: collapseWsAux true rest := by
  simp [collapseWsAux, hd]

theorem collapseWsAux_cons_nonspace (d : Char) (rest : List Char) (b : Bool)
    (hd : isPySpace d = false) :
    collapseWsAux b (d :: rest) = d :: collapseWsAux false rest := by
  simp [collapseWsAux, hd]

theorem mem_collapseWsAux (l : List Char) :
    ∀ (b : Bool) (c : Char), c ∈ collapseWsAux b l →
      c = ' ' ∨ (c ∈ l ∧ isPySpace c = false) := by
  induction l with
  | nil => intro b c hc; simp [collapseWsAux] at hc
  | cons d rest ih =>
    intro b c hc
    by_cases hd : isPySpace d = true
    · cases b with
      | true =>
        rw [collapseWsAux_cons_space_true d rest hd] at hc
        rcases ih true c hc with h | ⟨h1, h2⟩
        · exact Or.inl h
        · exact Or.inr ⟨List.mem_cons_of_mem _ h1, h2⟩
      | false =>
        rw [collapseWsAux_cons_space_false d rest hd] at hc
        rcases List.mem_cons.mp hc with h | h
        · exact Or.inl h
        · rcases ih true c h with h | ⟨h1, h2⟩
          · exact Or.inl h
          · exact Or.inr ⟨List.mem_cons_of_mem _ h1, h2⟩
    · have hd' : isPySpace d = false := by simpa using hd
      rw [collapseWsAux_cons_nonspace d rest b hd'] at hc
      rcases List.mem_cons.mp hc with h | h
      · exact Or.inr ⟨by simp [h], h ▸ hd'⟩
      · rcases ih false c h with h | ⟨h1, h2⟩
        · exact Or.inl h
        · exact Or.inr ⟨List.mem_cons_of_mem _ h1, h2⟩

theorem head_collapseWsAux_true (l : List Char) :
    ∀ h : Char, (collapseWsAux true l).head? = some h → isPySpace h = false := by
  induction l with
  | nil => intro h hh; simp [collapseWsAux] at hh
  | cons d rest ih =>
    intro h hh
    by_cases hd : isPySpace d = true
    · rw [collapseWsAux_cons_space_true d rest hd] at hh
      exact ih h hh
    · have hd' : isPySpace d = false := by simpa using hd
      rw [collapseWsAux_cons_nonspace d rest true hd'] at hh
      simp only [List.head?_cons, Option.some_inj] at hh
      exact hh ▸ hd'

theorem chain_collapseWsAux (l : List Char) :
    ∀ b : Bool, List.Chain' noTwoWs (collapseWsAux b l) := by
  induction l with
  | nil => intro b; simp [collapseWsAux]
  | cons d rest ih =>
    intro b
    by_cases hd : isPySpace d = true
    · cases b with
      | true => rw [collapseWsAux_cons_space_true d rest hd]; exact ih true
      | false =>
        rw [collapseWsAux_cons_space_false d rest hd]
        refine List.chain'_cons'.mpr ⟨?_, ih true⟩
        intro y hy
        exact Or.inr (head_collapseWsAux_true rest y hy)
    · have hd' : isPySpace d = false := by simpa using hd
      rw [collapseWsAux_cons_nonspace d rest b hd']
      refine List.chain'_cons'.mpr ⟨?_, ih false⟩
      intro y _
      exact Or.inl hd'

theorem collapseWsAux_fix (l : List Char) :
    ∀ b : Bool, (∀ c ∈ l, isPySpace c = true → c = ' ') →
      List.Chain' noTwoWs l →
      (b = true → ∀ h, l.head? = some h → isPySpace h = false) →
      collapseWsAux b l = l := by
  induction l with
  | nil => intro b _ _ _; simp [collapseWsAux]
  | cons d rest ih =>
    intro b hsp hch hb
    by_cases hd : isPySpace d = true
    · have hb' : b = false := by
        cases b with
        | true => exact absurd hd (by simp [hb rfl d rfl])
        | false => rfl
      subst hb'
      have hd1 : d = ' ' := hsp d (by simp) hd
      have hrest : ∀ h, rest.head? = some h → isPySpace h = false := by
        intro h hh
        have := (List.chain'_cons'.mp hch).1 h hh
        rcases this with h1 | h1
        · exact absurd hd (by simp [h1])
        · exact h1
      have htail : collapseWsAux true rest = rest := by
        apply ih true
        · intro c hc hcs; exact hsp c (List.mem_cons_of_mem _ hc) hcs
        · exact (List.chain'_cons'.mp hch).2
        · intro _; exact hrest
      rw [collapseWsAux_cons_space_false d rest hd, htail, hd1]
    · have hd' : isPySpace d = false := by simpa using hd
      have htail : collapseWsAux false rest = rest := by
        apply ih false
        · intro c hc hcs; exact hsp c (List.mem_cons_of_mem _ hc) hcs
        · exact (List.chain'_cons'.mp hch).2
        · intro h; exact absurd h (by simp)
      rw [collapseWsAux_cons_nonspace d rest b hd', htail]

theorem head_dropWhile_not (p : Char → Bool) (l : List Char) :
    ∀ h : Char, (l.dropWhile p).head? = some h → p h = false := by
  induction l with
  | nil => intro h hh; simp [List.dropWhile] at hh
  | cons d rest ih =>
    intro h hh
    by_cases hd : p d = true
    · rw [List.dropWhile_cons_of_pos hd] at hh
      exact ih h hh
    · have hd' : p d = false := by simpa using hd
      rw [List.dropWhile_cons_of_neg (by simp [hd'])] at hh
      simp only [List.head?_cons, Option.some_inj] at hh
      exact hh ▸ hd'

theorem dropWhile_eq_self_of_head (p : Char → Bool) (l : List Char)
    (h : ∀ c, l.head? = some c → p c = false) : l.dropWhile p = l := by
  cases l with
  | nil => rfl
  | cons d rest =>
    have := h d rfl
    rw [List.dropWhile_cons_of_neg (by simp [this])]

theorem getLast?_eq_head?_reverse (l : List Char) : l.getLast? = l.reverse.head? :=
  (List.head?_reverse l).symm

theorem getLast?_append_right (l₁ l₂ : List Char) (h : l₂ ≠ []) :
    (l₁ ++ l₂).getLast? = l₂.getLast? := by
  rw [getLast?_eq_head?_reverse, getLast?_eq_head?_reverse, List.reverse_append]
  cases hrev : l₂.reverse with
  | nil => exact absurd (by simpa using hrev) h
  | cons a t => simp

theorem mem_stripWs (l : List Char) (c : Char) (hc : c ∈ stripWs l) : c ∈ l := by
  unfold stripWs at hc
  rw [List.mem_reverse] at hc
  have h1 : c ∈ (l.dropWhile isPySpace).reverse :=
    (List.dropWhile_sublist isPySpace).subset hc
  rw [List.mem_reverse] at h1
  exact (List.dropWhile_sublist isPySpace).subset h1

theorem chain_stripWs (l : List Char) (h : List.Chain' noTwoWs l) :
    List.Chain' noTwoWs (stripWs l) := by
  unfold stripWs
  have h1 : List.Chain' noTwoWs (l.dropWhile isPySpace) :=
    h.suffix ⟨l.takeWhile isPySpace, List.takeWhile_append_dropWhile _ _⟩
  have h2 : List.Chain' noTwoWs (l.dropWhile isPySpace).reverse :=
    List.chain'_reverse.mpr (h1.imp fun a b hab => noTwoWs_symm a b hab)
  have h3 : List.Chain' noTwoWs ((l.dropWhile isPySpace).reverse.dropWhile isPySpace) :=
    h2.suffix ⟨_, List.takeWhile_append_dropWhile _ _⟩
  exact List.chain'_reverse.mpr (h3.imp fun a b hab => noTwoWs_symm a b hab)

theorem head_stripWs (l : List Char) :
    ∀ h : Char, (stripWs l).head? = some h → isPySpace h = false := by
  intro h hh
  unfold stripWs at hh
  set u := l.dropWhile isPySpace with hu
  set v := u.reverse.dropWhile isPySpace with hv
  rw [List.head?_reverse] at hh
  have hne : v ≠ [] := by
    intro hv0
    rw [hv0] at hh
    simp at hh
  have hsplit : u.reverse.takeWhile isPySpace ++ v = u.reverse :=
    List.takeWhile_append_dropWhile _ _
  have h2 : v.getLast? = u.reverse.getLast? := by
    rw [← hsplit, getLast?_append_right _ _ hne]
  rw [h2, List.getLast?_reverse] at hh
  exact head_dropWhile_not isPySpace l h hh

theorem last_stripWs (l : List Char) :
    ∀ h : Char, (stripWs l).getLast? = some h → isPySpace h = false := by
  intro h hh
  unfold stripWs at hh
  rw [List.getLast?_reverse] at hh
  exact head_dropWhile_not isPySpace _ h hh

theorem stripWs_fix (l : List Char)
    (h1 : ∀ c, l.head? = some c → isPySpace c = false)
    (h2 : ∀ c, l.getLast? = some c → isPySpace c = false) : stripWs l = l := by
  unfold stripWs
  rw [dropWhile_eq_self_of_head isPySpace l h1]
  have : ∀ c, l.reverse.head? = some c → isPySpace c = false := by
    intro c hc
    rw [List.head?_reverse] at hc
    exact h2 c hc
  rw [dropWhile_eq_self_of_head isPySpace l.reverse this, List.reverse_reverse]

theorem mem_cleanText_allowed (x : List Char) (c : Char) (hc : c ∈ cleanText x) :
    isAllowedChar c = true := by
  unfold cleanText at hc
  have h1 := mem_stripWs _ c hc
  rcases mem_collapseWsAux _ false c h1 with h | ⟨h2, _⟩
  · subst h; decide
  · exact List.of_mem_filter h2

theorem spaces_cleanText (x : List Char) (c : Char) (hc : c ∈ cleanText x)
    (hs : isPySpace c = true) : c = ' ' := by
  unfold cleanText at hc
  have h1 := mem_stripWs _ c hc
  rcases mem_collapseWsAux _ false c h1 with h | ⟨_, h3⟩
  · exact h
  · exact absurd hs (by simp [h3])

theorem chain_cleanText (x : List Char) : List.Chain' noTwoWs (cleanText x) :=
  chain_stripWs _ (chain_collapseWsAux _ false)

theorem cleanText_fixpoint (y : List Char)
    (hall : ∀ c ∈ y, isAllowedChar c = true)
    (hsp : ∀ c ∈ y, isPySpace c = true → c = ' ')
    (hch : List.Chain' noTwoWs y)
    (hhd : ∀ c, y.head? = some c → isPySpace c = false)
    (hlast : ∀ c, y.getLast? = some c → isPySpace c = false) :
    cleanText y = y := by
  unfold cleanText
  rw [List.filter_eq_self.mpr hall,
    collapseWsAux_fix y false hsp hch (by intro h; exact absurd h (by simp)),
    stripWs_fix y hhd hlast]

/-! ## Lemmas about the dedup pass -/

theorem dedupAux_sublist :
    ∀ (l : List OutlineEntry) (seen : List (List Char)), (dedupAux l seen).Sublist l := by
  intro l
  induction l with
  | nil => intro seen; simp [dedupAux]
  | cons e rest ih =>
    intro seen
    by_cases he : e.text ∈ seen
    · simp only [dedupAux, if_pos he]
      exact (ih seen).cons e
    · simp only [dedupAux, if_neg he]
      exact (ih (e.text :: seen)).cons₂ e

theorem dedupAux_not_seen :
    ∀ (l : List OutlineEntry) (seen : List (List Char)) (e : OutlineEntry),
      e ∈ dedupAux l seen → e.text ∉ seen := by
  intro l
  induction l with
  | nil => intro seen e he; simp [dedupAux] at he
  | cons d rest ih =>
    intro seen e he
    by_cases hd : d.text ∈ seen
    · simp only [dedupAux, if_pos hd] at he
      exact ih seen e he
    · simp only [dedupAux, if_neg hd] at he
      rcases List.mem_cons.mp he with h | h
      · exact h ▸ hd
      · have := ih (d.text :: seen) e h
        exact fun hmem => this (List.mem_cons_of_mem _ hmem)

theorem dedupAux_pairwise :
    ∀ (l : List OutlineEntry) (seen : List (List Char)),
      (dedupAux l seen).Pairwise (fun a b => a.text ≠ b.text) := by
  intro l
  induction l with
  | nil => intro seen; simp [dedupAux]
  | cons d rest ih =>
    intro seen
    by_cases hd : d.text ∈ seen
    · simp only [dedupAux, if_pos hd]
      exact ih seen
    · simp only [dedupAux, if_neg hd]
      refine List.Pairwise.cons ?_ (ih (d.text :: seen))
      intro b hb
      have := dedupAux_not_seen rest (d.text :: seen) b hb
      exact fun hEq => this (hEq ▸ List.mem_cons_self _ _)

theorem dedupAux_covers :
    ∀ (l : List OutlineEntry) (seen : List (List Char)) (e : OutlineEntry),
      e ∈ l → e.text ∉ seen → ∃ d ∈ dedupAux l seen, d.text = e.text := by
  intro l
  induction l with
  | nil => intro seen e he _; simp at he
  | cons d rest ih =>
    intro seen e he hseen
    by_cases hd : d.text ∈ seen
    · simp only [dedupAux, if_pos hd]
      rcases List.mem_cons.mp he with h | h
      · exact absurd (show e.text ∈ seen by rw [h]; exact hd) hseen
      · exact ih seen e h hseen
    · simp only [dedupAux, if_neg hd]
      by_cases hde : e.text = d.text
      · exact ⟨d, List.mem_cons_self _ _, hde.symm⟩
      · rcases List.mem_cons.mp he with h | h
        · exact absurd (congrArg OutlineEntry.text h) hde
        · obtain ⟨d2, hd2, hd2t⟩ := ih (d.text :: seen) e h
            (by simp [hde, hseen])
          exact ⟨d2, List.mem_cons_of_mem _ hd2, hd2t⟩

/-! ## Lemmas about `_extract_from_toc` -/

theorem extractFromToc_eq (toc : List (ℤ × List Char × ℤ)) :
    extractFromToc toc =
      (toc.filter (fun t => decide (1 ≤ t.1 ∧ t.1 ≤ 3))).map
        (fun t => ⟨mkLevelTag t.1, cleanText t.2.1, max 0 (t.2.2 - 1)⟩) := by
  induction toc with
  | nil => rfl
  | cons t rest ih =>
    obtain ⟨lvl, title, pg⟩ := t
    by_cases h : 1 ≤ lvl ∧ lvl ≤ 3
    · simp [extractFromToc, List.filter_cons, h, ih]
    · simp [extractFromToc, List.filter_cons, h, ih]

theorem mem_extractFromToc (toc : List (ℤ × List Char × ℤ)) (e : OutlineEntry)
    (he : e ∈ extractFromToc toc) :
    ∃ t ∈ toc, (1 ≤ t.1 ∧ t.1 ≤ 3) ∧
      e = ⟨mkLevelTag t.1, cleanText t.2.1, max 0 (t.2.2 - 1)⟩ := by
  rw [extractFromToc_eq] at he
  obtain ⟨t, ht, hte⟩ := List.mem_map.mp he
  refine ⟨t, List.mem_of_mem_filter ht, ?_, hte.symm⟩
  have := List.of_mem_filter ht
  exact of_decide_eq_true this

/-! ## Lemmas about the size map -/

theorem chain_insertDesc (x : ℚ) (l : List ℚ) (h : List.Chain' (· ≥ ·) l) :
    List.Chain' (· ≥ ·) (insertDesc x l) := by
  induction l with
  | nil => exact List.chain'_singleton x
  | cons y r ih =>
    by_cases hxy : x ≥ y
    · simp only [insertDesc, if_pos hxy]
      exact List.chain'_cons.mpr ⟨hxy, h⟩
    · simp only [insertDesc, if_neg hxy]
      have hyx : y ≥ x := le_of_lt (lt_of_not_ge hxy)
      cases r with
      | nil => exact List.chain'_cons.mpr ⟨hyx, List.chain'_singleton x⟩
      | cons w r2 =>
        have htail : List.Chain' (· ≥ ·) (insertDesc x (w :: r2)) :=
          ih (List.chain'_cons.mp h).2
        by_cases hxw : x ≥ w
        · have hstep : insertDesc x (w :: r2) = x :: w :: r2 := by
            simp [insertDesc, hxw]
          rw [hstep]
          rw [hstep] at htail
          exact List.chain'_cons.mpr ⟨hyx, htail⟩
        · have hstep : insertDesc x (w :: r2) = w :: insertDesc x r2 := by
            simp [insertDesc, hxw]
          rw [hstep]
          rw [hstep] at htail
          exact List.chain'_cons.mpr ⟨(List.chain'_cons.mp h).1, htail⟩

theorem chain_sortDesc (l : List ℚ) : List.Chain' (· ≥ ·) (sortDesc l) := by
  induction l with
  | nil => simp [sortDesc]
  | cons x r ih => exact chain_insertDesc x (sortDesc r) ih

theorem mkSizeMap_shape (l : List ℚ) (h : List.Chain' (· ≥ ·) l) :
    mkSizeMap l = [] ∨
      ∃ a b c : ℚ,
        mkSizeMap l = [("H1".toList, a), ("H2".toList, b), ("H3".toList, c)] ∧
          b ≤ a ∧ c ≤ b := by
  match l with
  | [] => exact Or.inl rfl
  | [s0] => exact Or.inr ⟨s0, s0, s0, rfl, le_refl s0, le_refl s0⟩
  | [s0, s1] =>
    have h01 : s0 ≥ s1 := (List.chain'_cons.mp h).1
    exact Or.inr ⟨s0, s1, s1, rfl, h01, le_refl s1⟩
  | s0 :: s1 :: s2 :: r =>
    have h01 : s0 ≥ s1 := (List.chain'_cons.mp h).1
    have h12 : s1 ≥ s2 := (List.chain'_cons.mp (List.chain'_cons.mp h).2).1
    exact Or.inr ⟨s0, s1, s2, rfl, h01, h12⟩

theorem mkSizeMap_keys (l : List ℚ) :
    (mkSizeMap l).map Prod.fst = [] ∨
      (mkSizeMap l).map Prod.fst = ["H1".toList, "H2".toList, "H3".toList] := by
  cases l with
  | nil => exact Or.inl rfl
  | cons s0 rest => exact Or.inr rfl

theorem levelFor_cases (m : List (List Char × ℚ)) (s : ℚ) :
    levelFor m s = "H3".toList ∨ levelFor m s ∈ m.map Prod.fst := by
  unfold levelFor
  cases hf : m.find? (fun p => decide (|s - p.2| < 1 / 2)) with
  | none => exact Or.inl rfl
  | some p =>
    exact Or.inr (List.mem_map.mpr ⟨p, List.mem_of_find?_eq_some hf, rfl⟩)

theorem analyzeFonts_ok_shape (sizes : List ℤ) (prof : FontProfile)
    (h : analyzeFonts sizes = .ok (some prof)) :
    ∃ l, List.Chain' (· ≥ ·) l ∧ prof.sizeMap = mkSizeMap l := by
  unfold analyzeFonts at h
  by_cases h1 : sizes.isEmpty
  · rw [if_pos h1] at h; simp at h
  · rw [if_neg h1] at h
    by_cases h2 : (clustersOf sizes).isEmpty
    · rw [if_pos h2] at h; simp at h
    · rw [if_neg h2] at h
      simp only [Except.ok.injEq, Option.some.injEq] at h
      exact ⟨_, chain_sortDesc _, by rw [← h]⟩

/-! ## Lemmas about the heuristic scan -/

theorem lineEntry_some (prof : FontProfile) (pNum : ℕ) (pageWidth : ℚ) (line : Line)
    (e : OutlineEntry) (h : lineEntry prof pNum pageWidth line = some e) :
    3 ≤ e.text.length ∧ e.page = (pNum : ℤ) ∧
      e.level = levelFor prof.sizeMap (lineMaxFlags line.spans).1 := by
  simp only [lineEntry] at h
  split at h
  next hcond => exact absurd h (by simp)
  next hcond =>
    split at h
    next hcand =>
      have he := Option.some.inj h
      have hlen : 3 ≤ (cleanText (lineText line.spans)).length := by
        simp only [Bool.or_eq_true, decide_eq_true_eq, List.isEmpty_iff] at hcond
        omega
      refine ⟨?_, ?_, ?_⟩
      · rw [← he]; exact hlen
      · rw [← he]
      · rw [← he]
    next hcand => exact absurd h (by simp)

theorem mem_heuristicPages (prof : FontProfile) :
    ∀ (pages : List Page) (n : ℕ) (e : OutlineEntry), e ∈ heuristicPages prof n pages →
      ∃ (i : ℕ) (pw : ℚ) (line : Line), lineEntry prof i pw line = some e := by
  intro pages
  induction pages with
  | nil => intro n e he; simp [heuristicPages] at he
  | cons pg rest ih =>
    intro n e he
    simp only [heuristicPages] at he
    rcases List.mem_append.mp he with h | h
    · obtain ⟨line, _, hsome⟩ := List.mem_filterMap.mp h
      exact ⟨n, pg.width, line, hsome⟩
    · exact ih (n + 1) e h

theorem mem_heuristicPages_props (prof : FontProfile) (pages : List Page) (n : ℕ)
    (e : OutlineEntry) (he : e ∈ heuristicPages prof n pages) :
    3 ≤ e.text.length ∧ 0 ≤ e.page ∧
      (e.level = "H3".toList ∨ e.level ∈ prof.sizeMap.map Prod.fst) := by
  obtain ⟨i, pw, line, hsome⟩ := mem_heuristicPages prof pages n e he
  obtain ⟨h1, h2, h3⟩ := lineEntry_some prof i pw line e hsome
  refine ⟨h1, ?_, ?_⟩
  · rw [h2]; exact Int.natCast_nonneg i
  · rw [h3]
    rcases levelFor_cases prof.sizeMap (lineMaxFlags line.spans).1 with h | h
    · exact Or.inl h
    · exact Or.inr h

/-! ## Lemmas about the title scan -/

theorem le_maxSizeFold (spans : List Span) : ∀ a : ℚ, a ≤ maxSizeFold spans a := by
  induction spans with
  | nil => intro a; exact le_refl a
  | cons s rest ih =>
    intro a
    exact le_trans (le_max_left a s.size) (ih (max a s.size))

theorem titleCandFold_general (spans : List Span) :
    ∀ (a : ℚ) (c : Option (List Char)),
      (spans.foldl titleStep (a, c)).2 =
        if a < maxSizeFold spans a then
          (spans.find? (fun s => decide (s.size = maxSizeFold spans a))).map Span.text
        else c := by
  induction spans with
  | nil =>
    intro a c
    simp [maxSizeFold]
  | cons s rest ih =>
    intro a c
    by_cases hs : s.size > a
    · have hstep : titleStep (a, c) s = (s.size, some s.text) := by
        simp [titleStep, hs]
      have hmax : max a s.size = s.size := max_eq_right (le_of_lt hs)
      have hM : maxSizeFold (s :: rest) a = maxSizeFold rest s.size := by
        simp only [maxSizeFold, List.foldl_cons, hmax]
      have hsM : s.size ≤ maxSizeFold rest s.size := le_maxSizeFold rest s.size
      have haM : a < maxSizeFold (s :: rest) a := by
        rw [hM]; exact lt_of_lt_of_le hs hsM
      rw [List.foldl_cons, hstep, ih s.size (some s.text), if_pos haM, hM]
      by_cases hlt : s.size < maxSizeFold rest s.size
      · rw [if_pos hlt, List.find?_cons_of_neg]
        simp only [decide_eq_true_eq]
        exact ne_of_lt hlt
      · have hseq : s.size = maxSizeFold rest s.size := le_antisymm hsM (le_of_not_lt hlt)
        rw [if_neg hlt, List.find?_cons_of_pos]
        · simp
        · simp only [decide_eq_true_eq]
          exact hseq
    · have hstep : titleStep (a, c) s = (a, c) := by
        simp [titleStep, hs]
      have hmax : max a s.size = a := max_eq_left (le_of_not_lt hs)
      have hM : maxSizeFold (s :: rest) a = maxSizeFold rest a := by
        simp only [maxSizeFold, List.foldl_cons, hmax]
      rw [List.foldl_cons, hstep, ih a c, hM]
      by_cases haM : a < maxSizeFold rest a
      · rw [if_pos haM, if_pos haM, List.find?_cons_of_neg]
        simp only [decide_eq_true_eq]
        intro hcontra
        rw [← hcontra] at haM
        exact hs haM
      · rw [if_neg haM, if_neg haM]

theorem titleCandFold_snd (spans : List Span) :
    (titleCandFold spans).2 =
      if 0 < maxSizeFold spans 0 then
        (spans.find? (fun s => decide (s.size = maxSizeFold spans 0))).map Span.text
      else none :=
  titleCandFold_general spans 0 none

theorem titleFallback_eq_spec (doc : Document) :
    titleFallback doc = specAmendedFallback doc := by
  unfold titleFallback specAmendedFallback
  rw [titleCandFold_snd]
  cases hm : (if 0 < maxSizeFold (page0Spans doc) 0 then
      ((page0Spans doc).find?
        (fun s => decide (s.size = maxSizeFold (page0Spans doc) 0))).map Span.text
    else none) with
  | none => rfl
  | some c =>
    by_cases hc : c = []
    · simp [hc]
    · simp [hc, List.isEmpty_iff]

/-! ## Assembly helpers -/

theorem getStructuredOutline_outline (doc : Document) (prof : Option FontProfile) :
    (getStructuredOutline doc prof).outline =
      if doc.toc.isEmpty then extractHeadingsHeuristic doc prof
      else extractFromToc doc.toc := rfl

theorem processDocument_ok (doc : Document) (prof : Option FontProfile)
    (h : analyzeFonts (collectSizes doc) = .ok prof) :
    processDocument doc = getStructuredOutline doc prof := by
  unfold processDocument
  rw [h]

theorem processDocument_error (doc : Document)
    (h : analyzeFonts (collectSizes doc) = .error ()) :
    processDocument doc = ⟨"Extraction Failed".toList, [], some ()⟩ := by
  unfold processDocument
  rw [h]

theorem firstOccsAux_subset :
    ∀ (l seen : List ℤ) (v : ℤ), v ∈ firstOccsAux l seen → v ∈ l := by
  intro l
  induction l with
  | nil => intro seen v hv; simp [firstOccsAux] at hv
  | cons x r ih =>
    intro seen v hv
    by_cases hx : x ∈ seen
    · simp only [firstOccsAux, if_pos hx] at hv
      exact List.mem_cons_of_mem _ (ih seen v hv)
    · simp only [firstOccsAux, if_neg hx] at hv
      rcases List.mem_cons.mp hv with h | h
      · exact h ▸ List.mem_cons_self _ _
      · exact List.mem_cons_of_mem _ (ih (x :: seen) v h)

theorem firstOccs_subset (l : List ℤ) (v : ℤ) (hv : v ∈ firstOccs l) : v ∈ l :=
  firstOccsAux_subset l [] v hv

/-! ## Claim theorems -/

/-- Claim C1 (code bug): the claim says `isCentered` holds exactly when the
line's horizontal center lies strictly between 30% and 70% of the page
width.  The source computes `position[0] > w*0.3 and position[1] < w*0.7`
but is passed `position = (center_x, page_width)`, so the second conjunct
compares the page width against 70% of itself and the feature is false
even for a perfectly centered line: center 50 on a page of width 100. -/
theorem c1_centered_code_bug :
    specIsCentered ((0 + 100) / 2) 100 = true ∧
      isCenteredFeature ((0 + 100) / 2, 100) 100 = false := by
  with_unfolding_all decide

/-- Claim C2 counterexample: with no metadata title and a single page-0
span whose raw text `@@@` is non-empty but cleans to the empty string, the
resolver of the claim returns the filename stem `doc`, while the code
returns the empty string (it tests the raw candidate, not the cleaned
text, and returns the cleaned text unconditionally). -/
theorem c2_counterexample :
    getTitle c2doc = [] ∧ specResolveTitle c2doc = "doc".toList ∧
      getTitle c2doc ≠ specResolveTitle c2doc := by
  refine ⟨?_, ?_, ?_⟩ <;> with_unfolding_all decide

/-- Claim C2 (amended): the title chain accepts the metadata title when the
raw field is truthy and it cleans to a non-empty string; otherwise, when
page 0 has a span of positive maximal size whose raw text is non-empty,
the cleaned text of the first such maximal span is returned even when that
cleaned text is empty; otherwise the basename with every occurrence of
`.pdf` removed. -/
theorem c2_title_chain_amended (doc : Document) :
    getTitle doc = specResolveTitleAmended doc := by
  unfold getTitle specResolveTitleAmended
  cases doc.metadataTitle with
  | none => exact titleFallback_eq_spec doc
  | some t =>
    dsimp only
    by_cases ht : t.isEmpty
    · have ht' : t = [] := List.isEmpty_iff.mp ht
      rw [if_pos ht, if_neg (by simp [ht'])]
      exact titleFallback_eq_spec doc
    · have ht' : t ≠ [] := fun hc => ht (List.isEmpty_iff.mpr hc)
      rw [if_neg ht]
      by_cases hct : (cleanText t).isEmpty
      · have hct' : cleanText t = [] := List.isEmpty_iff.mp hct
        rw [if_pos hct, if_neg (by simp [hct'])]
        exact titleFallback_eq_spec doc
      · have hct' : cleanText t ≠ [] := fun hc => hct (List.isEmpty_iff.mpr hc)
        rw [if_neg hct, if_pos ⟨ht', hct'⟩]

/-- Claim C3 counterexample: on a document whose spans form a size-10 body
cluster and a single size-14 heading cluster, the profile's size map is
`{H1: 14, H2: 14, H3: 14}` — three entries with equal values, so its
values are not strictly descending as claimed. -/
theorem c3_counterexample :
    analyzeFonts (collectSizes c3doc) =
      .ok (some ⟨10, [("H1".toList, 14), ("H2".toList, 14), ("H3".toList, 14)]⟩) ∧
      ¬ List.Chain' (fun a b : ℚ => a > b)
          ([("H1".toList, (14 : ℚ)), ("H2".toList, 14), ("H3".toList, 14)].map Prod.snd) := by
  constructor
  · with_unfolding_all decide
  · intro h
    exact absurd ((List.chain'_cons.mp h).1) (by norm_num)

/-- Claim C3 (amended): the size map is either empty or has exactly the
three entries H1, H2, H3 in order with weakly descending values
(H1 ≥ H2 ≥ H3); the construction assigns the 1st sorted heading median to
H1, the 2nd to H2 (reusing the 1st when only one exists) and the 3rd to H3
(reusing the last available when fewer than three exist), so reused values
make the descent non-strict. -/
theorem c3_sizeMap_weak_desc (sizes : List ℤ) (prof : FontProfile)
    (h : analyzeFonts sizes = .ok (some prof)) :
    prof.sizeMap = [] ∨
      ∃ a b c : ℚ,
        prof.sizeMap = [("H1".toList, a), ("H2".toList, b), ("H3".toList, c)] ∧
          b ≤ a ∧ c ≤ b := by
  obtain ⟨l, hch, hm⟩ := analyzeFonts_ok_shape sizes prof h
  rw [hm]
  exact mkSizeMap_shape l hch

/-- Witness for C3: the profile of `c3doc` satisfies the amended shape. -/
theorem c3_witness :
    (⟨10, [("H1".toList, (14 : ℚ)), ("H2".toList, 14), ("H3".toList, 14)]⟩ :
        FontProfile).sizeMap = [] ∨
      ∃ a b c : ℚ,
        (⟨10, [("H1".toList, (14 : ℚ)), ("H2".toList, 14), ("H3".toList, 14)]⟩ :
            FontProfile).sizeMap =
          [("H1".toList, a), ("H2".toList, b), ("H3".toList, c)] ∧ b ≤ a ∧ c ≤ b :=
  c3_sizeMap_weak_desc (collectSizes c3doc) _ (by with_unfolding_all decide)

/-- Claim C4 counterexample: the TOC entry `(1, "@@@", 2)` produces an
outline entry whose cleaned text is empty, refuting the claim that every
produced entry has non-empty cleaned text. -/
theorem c4_counterexample :
    (processDocument c4doc).outline = [⟨"H1".toList, [], 1⟩] ∧
      ¬ (∀ e ∈ (processDocument c4doc).outline, e.text ≠ []) := by
  refine ⟨?_, ?_⟩ <;> with_unfolding_all decide

/-- Claim C4 (amended): every produced outline entry has level in
{H1, H2, H3} and page ≥ 0; entries of the heuristic path (empty TOC) also
have non-empty text, but TOC-path entries carry `clean(title)` unchecked
and may have empty text. -/
theorem c4_entry_invariants (doc : Document) (e : OutlineEntry)
    (he : e ∈ (processDocument doc).outline) :
    (e.level = "H1".toList ∨ e.level = "H2".toList ∨ e.level = "H3".toList) ∧
      0 ≤ e.page ∧ (doc.toc = [] → e.text ≠ []) := by
  unfold processDocument at he
  cases hA : analyzeFonts (collectSizes doc) with
  | error u => rw [hA] at he; simp at he
  | ok prof =>
    rw [hA] at he
    rw [show (getStructuredOutline doc prof).outline =
        if doc.toc.isEmpty then extractHeadingsHeuristic doc prof
        else extractFromToc doc.toc from rfl] at he
    by_cases htoc : doc.toc.isEmpty
    · rw [if_pos htoc] at he
      cases prof with
      | none => simp [extractHeadingsHeuristic] at he
      | some p =>
        simp only [extractHeadingsHeuristic] at he
        have hraw : e ∈ heuristicPages p 0 doc.pages :=
          (dedupAux_sublist _ []).subset he
        obtain ⟨hlen, hpage, hlevel⟩ := mem_heuristicPages_props p doc.pages 0 e hraw
        refine ⟨?_, hpage, fun _ hnil => ?_⟩
        · rcases hlevel with h | h
          · exact Or.inr (Or.inr h)
          · obtain ⟨l, _, hm⟩ := analyzeFonts_ok_shape (collectSizes doc) p hA
            rw [hm] at h
            rcases mkSizeMap_keys l with hk | hk
            · rw [hk] at h; simp at h
            · rw [hk] at h
              simp only [List.mem_cons, List.not_mem_nil, or_false] at h
              tauto
        · rw [hnil] at hlen; simp at hlen
    · rw [if_neg htoc] at he
      obtain ⟨t, _, hrange, het⟩ := mem_extractFromToc doc.toc e he
      refine ⟨?_, ?_, fun hc => absurd (List.isEmpty_iff.mpr hc) htoc⟩
      · rw [het]
        have h123 : t.1 = 1 ∨ t.1 = 2 ∨ t.1 = 3 := by omega
        rcases h123 with h | h | h
        · rw [h]
          exact Or.inl (show mkLevelTag 1 = "H1".toList by with_unfolding_all decide)
        · rw [h]
          exact Or.inr
            (Or.inl (show mkLevelTag 2 = "H2".toList by with_unfolding_all decide))
        · rw [h]
          exact Or.inr
            (Or.inr (show mkLevelTag 3 = "H3".toList by with_unfolding_all decide))
      · rw [het]
        exact le_max_left 0 _

/-- Witness for C4: the entry the TOC path produces for `c4wdoc` satisfies
the amended invariants. -/
theorem c4_witness :
    c4entry ∈ (processDocument c4wdoc).outline ∧
      ((c4entry.level = "H1".toList ∨ c4entry.level = "H2".toList ∨
          c4entry.level = "H3".toList) ∧
        0 ≤ c4entry.page ∧ (c4wdoc.toc = [] → c4entry.text ≠ [])) :=
  have hmem : c4entry ∈ (processDocument c4wdoc).outline := by
    with_unfolding_all decide
  ⟨hmem, c4_entry_invariants c4wdoc c4entry hmem⟩

/-- Claim C5 counterexample: a native TOC containing two entries titled `A`
produces an outline with two entries of identical text — the TOC path does
not deduplicate, refuting the claim for "every produced outline". -/
theorem c5_counterexample :
    (processDocument c5doc).outline =
      [⟨"H1".toList, "A".toList, 0⟩, ⟨"H1".toList, "A".toList, 1⟩] ∧
      ¬ ((processDocument c5doc).outline).Pairwise (fun a b => a.text ≠ b.text) := by
  constructor
  · with_unfolding_all decide
  · intro hp
    rw [show (processDocument c5doc).outline =
        [⟨"H1".toList, "A".toList, 0⟩, ⟨"H1".toList, "A".toList, 1⟩] from by
          with_unfolding_all decide] at hp
    have hne := (List.pairwise_cons.mp hp).1 ⟨"H1".toList, "A".toList, 1⟩
      (List.mem_cons_self _ _)
    exact hne rfl

/-- Claim C5 (amended): deduplication by exact text applies to the
heuristic path only: there, no two retained entries share text, the
retained entries keep the detection order (a sublist of the raw scan) and
every detected text keeps a representative; TOC-derived outlines are not
deduplicated. -/
theorem c5_dedup_heuristic (doc : Document) (prof : Option FontProfile)
    (htoc : doc.toc = []) (hA : analyzeFonts (collectSizes doc) = .ok prof) :
    ((processDocument doc).outline).Pairwise (fun a b => a.text ≠ b.text) ∧
      ((processDocument doc).outline).Sublist (rawHeuristicEntries doc prof) ∧
      ∀ e ∈ rawHeuristicEntries doc prof,
        ∃ d ∈ (processDocument doc).outline, d.text = e.text := by
  have hout : (processDocument doc).outline = extractHeadingsHeuristic doc prof := by
    unfold processDocument
    rw [hA]
    rw [show (getStructuredOutline doc prof).outline =
        if doc.toc.isEmpty then extractHeadingsHeuristic doc prof
        else extractFromToc doc.toc from rfl]
    rw [if_pos (List.isEmpty_iff.mpr htoc)]
  cases prof with
  | none =>
    rw [hout]
    exact ⟨by simp [extractHeadingsHeuristic],
      by simp [extractHeadingsHeuristic, rawHeuristicEntries],
      by simp [rawHeuristicEntries]⟩
  | some p =>
    rw [hout]
    simp only [extractHeadingsHeuristic, rawHeuristicEntries, dedupByText]
    refine ⟨dedupAux_pairwise _ [], dedupAux_sublist _ [], ?_⟩
    intro e hemem
    exact dedupAux_covers _ [] e hemem (by simp)

/-- Witness for C5: the heuristic document whose heading occurs twice. -/
theorem c5_witness :
    c5wdoc.toc = [] ∧
      ((processDocument c5wdoc).outline).Pairwise (fun a b => a.text ≠ b.text) ∧
      ((processDocument c5wdoc).outline).Sublist
        (rawHeuristicEntries c5wdoc (some ⟨10, []⟩)) ∧
      ∀ e ∈ rawHeuristicEntries c5wdoc (some ⟨10, []⟩),
        ∃ d ∈ (processDocument c5wdoc).outline, d.text = e.text :=
  have hA : analyzeFonts (collectSizes c5wdoc) = .ok (some ⟨10, []⟩) := by
    with_unfolding_all decide
  ⟨rfl, c5_dedup_heuristic c5wdoc (some ⟨10, []⟩) rfl hA⟩

/-- Claim C6: for a document with a non-empty native TOC the produced
outline is exactly the in-range (level 1–3) TOC entries in input order,
with level `H`+level, text `clean(title)` and page `max(0, page−1)`; its
length is the count of in-range entries. -/
theorem c6_toc_outline (doc : Document) (prof : Option FontProfile)
    (h : doc.toc ≠ []) :
    (getStructuredOutline doc prof).outline =
      (doc.toc.filter (fun t => decide (1 ≤ t.1 ∧ t.1 ≤ 3))).map
        (fun t => ⟨mkLevelTag t.1, cleanText t.2.1, max 0 (t.2.2 - 1)⟩) ∧
    (getStructuredOutline doc prof).outline.length =
      doc.toc.countP (fun t => decide (1 ≤ t.1 ∧ t.1 ≤ 3)) := by
  have hne : doc.toc.isEmpty = false := by
    cases htoc : doc.toc with
    | nil => exact absurd htoc h
    | cons a t => rfl
  have hout : (getStructuredOutline doc prof).outline = extractFromToc doc.toc := by
    rw [show (getStructuredOutline doc prof).outline =
        if doc.toc.isEmpty then extractHeadingsHeuristic doc prof
        else extractFromToc doc.toc from rfl, hne]
    simp
  rw [hout, extractFromToc_eq]
  refine ⟨rfl, ?_⟩
  rw [List.length_map]
  exact (List.countP_eq_length_filter _ _).symm

/-- Witness for C6: the four-entry TOC of `c6doc` (levels 0, 1, 2, 4)
produces exactly the two in-range entries, in order. -/
theorem c6_witness :
    (getStructuredOutline c6doc none).outline =
      [⟨"H1".toList, "Introduction".toList, 1⟩,
       ⟨"H2".toList, "Background".toList, 2⟩] ∧
      (getStructuredOutline c6doc none).outline.length = 2 := by
  have h := c6_toc_outline c6doc none (by with_unfolding_all decide)
  constructor
  · rw [h.1]; with_unfolding_all decide
  · rw [h.2]; with_unfolding_all decide

/-- Claim C7: a line is classified as a heading iff its feature score
strictly exceeds 3.0; in particular a score of exactly 3.0 is rejected. -/
theorem c7_strict_threshold (text : List Char) (fontSize : ℚ) (fontFlags : ℕ)
    (position : ℚ × ℚ) (pageWidth bodySize : ℚ) :
    (isHeadingCandidate text fontSize fontFlags position pageWidth bodySize = true ↔
      3 < headingScore text fontSize fontFlags position pageWidth bodySize) ∧
    (headingScore text fontSize fontFlags position pageWidth bodySize = 3 →
      isHeadingCandidate text fontSize fontFlags position pageWidth bodySize = false) := by
  have hEq : isHeadingCandidate text fontSize fontFlags position pageWidth bodySize =
      decide (3 < headingScore text fontSize fontFlags position pageWidth bodySize) := rfl
  constructor
  · rw [hEq]
    exact decide_eq_true_iff
  · intro h
    rw [hEq, h]
    simp

/-- Witness for C7: the line `hello there` (not bold-scored past the
threshold: size factor 1.0, bold 1.0, centered 0.6, short 0.4) reaches a
score of exactly 3.0 and is rejected. -/
theorem c7_witness :
    headingScore ("hello there".toList) 8 1 (50, 10) 100 12 = 3 ∧
      isHeadingCandidate ("hello there".toList) 8 1 (50, 10) 100 12 = false :=
  have h3 : headingScore ("hello there".toList) 8 1 (50, 10) 100 12 = 3 := by
    with_unfolding_all decide
  ⟨h3, (c7_strict_threshold ("hello there".toList) 8 1 (50, 10) 100 12).2 h3⟩

/-- Claim C8: a document with zero spans yields the empty font profile,
the heuristic detector then yields the empty outline instead of failing,
and (with no TOC) assembly still produces a well-formed result. -/
theorem c8_empty_profile (doc : Document) (h : collectSizes doc = []) :
    analyzeFonts (collectSizes doc) = .ok none ∧
      extractHeadingsHeuristic doc none = [] ∧
      (doc.toc = [] → processDocument doc = ⟨getTitle doc, [], none⟩) := by
  have h1 : analyzeFonts (collectSizes doc) = .ok none := by
    rw [h]; rfl
  refine ⟨h1, rfl, fun htoc => ?_⟩
  unfold processDocument
  rw [h1]
  simp [getStructuredOutline, htoc, extractHeadingsHeuristic]

/-- Witness for C8: the empty document. -/
theorem c8_witness :
    collectSizes c8doc = [] ∧
      processDocument c8doc = ⟨getTitle c8doc, [], none⟩ ∧
      getTitle c8doc = "empty".toList :=
  ⟨rfl, (c8_empty_profile c8doc rfl).2.2 rfl, by with_unfolding_all decide⟩

/-- Claim C9: `_clean_text` is idempotent, and empty input yields the
empty string. -/
theorem c9_clean_idempotent (x : List Char) :
    cleanText (cleanText x) = cleanText x ∧ cleanText ([] : List Char) = [] := by
  refine ⟨?_, rfl⟩
  apply cleanText_fixpoint
  · exact fun c hc => mem_cleanText_allowed x c hc
  · exact fun c hc => spaces_cleanText x c hc
  · exact chain_cleanText x
  · exact fun c hc => head_stripWs _ c hc
  · exact fun c hc => last_stripWs _ c hc

/-- Claim C10: a document with at least one span in which no rounded size
has multiplicity ≥ 5 leaves every point as DBSCAN noise, `max` over the
empty cluster dict raises, the constructor re-raises, and the document is
reported as a failure instead of degrading to an empty outline. -/
theorem c10_no_cluster_failure (doc : Document) (h1 : collectSizes doc ≠ [])
    (h2 : ∀ v ∈ collectSizes doc, (collectSizes doc).count v < 5) :
    analyzeFonts (collectSizes doc) = .error () ∧
      processDocument doc = ⟨"Extraction Failed".toList, [], some ()⟩ := by
  have hclusters : clustersOf (collectSizes doc) = [] := by
    unfold clustersOf
    apply List.filter_eq_nil_iff.mpr
    intro v hv
    have hvmem : v ∈ collectSizes doc := firstOccs_subset _ v hv
    have := h2 v hvmem
    simp only [decide_eq_true_eq]
    omega
  have hne : (collectSizes doc).isEmpty = false := by
    cases hc : collectSizes doc with
    | nil => exact absurd hc h1
    | cons a t => rfl
  have hA : analyzeFonts (collectSizes doc) = .error () := by
    simp [analyzeFonts, hne, hclusters]
  refine ⟨hA, ?_⟩
  unfold processDocument
  rw [hA]

/-- Witness for C10: the two-span document with sizes 10 and 12. -/
theorem c10_witness :
    collectSizes c10doc ≠ [] ∧
      (∀ v ∈ collectSizes c10doc, (collectSizes c10doc).count v < 5) ∧
      processDocument c10doc = ⟨"Extraction Failed".toList, [], some ()⟩ :=
  ⟨by with_unfolding_all decide, by with_unfolding_all decide,
    (c10_no_cluster_failure c10doc (by with_unfolding_all decide)
      (by with_unfolding_all decide)).2⟩

